import Mathlib

/-!
Verification of the Node.js wrapper `src/api/node/index.ts` of
ai-bangladesh-address-parser (`AddressExtractor`).

The wrapper marshals an address string into a Python subprocess call and
parses the JSON reply.  We embed the wrapper shallowly:

* JavaScript runtime values are `JSVal` (undefined, null, booleans,
  numbers as rationals, strings, objects as association lists).
* The Python subprocess is an abstract `BackendBehaviour`: the time at
  which `PythonShell.run` settles (or never) and its outcome (a rejection
  message or the list of stdout lines).
* `JSON.parse` is an abstract parameter `parse : String → Except String JSVal`
  (counterexample instances below agree with real `JSON.parse` on the
  concrete inputs where they are used).
* Promise rejection / thrown exceptions are `Except String`.
* The `Promise.race` with the `setTimeout` timer in `_runPythonScript`
  resolves to the backend outcome when the backend settles strictly
  before the timer, and to the timeout rejection otherwise.
-/

/-- JavaScript runtime values (the fragment the wrapper manipulates). -/
inductive JSVal where
  | undef : JSVal
  | null : JSVal
  | boolean : Bool → JSVal
  | number : ℚ → JSVal
  | string : String → JSVal
  | object : List (String × JSVal) → JSVal

/-- JavaScript truthiness of a value (`!v` is `!v.truthy`).
`0`, `""`, `null`, `undefined` and `false` are falsy; objects are truthy. -/
def JSVal.truthy : JSVal → Bool
  | .undef => false
  | .null => false
  | .boolean b => b
  | .number q => q != 0
  | .string s => s != ""
  | .object _ => true

/-- `typeof v === 'string'`. -/
def JSVal.isString : JSVal → Bool
  | .string _ => true
  | _ => false

/-- The underlying string of a string value (unused on non-strings: the
wrapper only calls `.trim()` after the `typeof` check succeeded). -/
def JSVal.strVal : JSVal → String
  | .string s => s
  | _ => ""

/-- Field access `v.k` on an object (`undefined`/absent otherwise). -/
def JSVal.getField : JSVal → String → Option JSVal
  | .object fields, k => List.lookup k fields
  | _, _ => none

/-- `address || ''` : the value itself when truthy, else the empty string. -/
def jsOrEmpty (v : JSVal) : JSVal :=
  if v.truthy then v else .string ""

/-- `AddressExtractor.emptyResult(address)` from src/api/node/index.ts:
`{ components: {}, overall_confidence: 0.0, extraction_time_ms: 0,
   normalized_address: '', original_address: address }`. -/
def emptyResult (address : JSVal) : JSVal :=
  .object [("components", .object []),
           ("overall_confidence", .number 0),
           ("extraction_time_ms", .number 0),
           ("normalized_address", .string ""),
           ("original_address", address)]

/-- JavaScript `String.prototype.trim`: strip leading and trailing
whitespace. -/
def jsTrim (s : String) : String :=
  String.mk (((s.data.dropWhile Char.isWhitespace).reverse.dropWhile
    Char.isWhitespace).reverse)

/-- The guard of `extract`:
`!address || typeof address !== 'string' || !address.trim()`. -/
def shouldShortCircuit (v : JSVal) : Bool :=
  !v.truthy || !v.isString || (jsTrim v.strVal == "")

/-- The `{` character (the wrapper searches for it in the backend output). -/
def openBraceChar : Char := '\x7b'

/-- The `}` character. -/
def closeBraceChar : Char := '\x7d'

/-- Index of the first occurrence of a character in a list. -/
def firstIdxOf (c : Char) : List Char → Option Nat
  | [] => none
  | x :: xs => if x = c then some 0 else (firstIdxOf c xs).map (· + 1)

/-- Index of the last occurrence of a character in a list. -/
def lastIdxOf (c : Char) (cs : List Char) : Option Nat :=
  match firstIdxOf c cs.reverse with
  | some i => some (cs.length - 1 - i)
  | none => none

/-- `output.match(/\x7b[\s\S]*\x7d/)` : the JavaScript regex engine tries
start positions left to right and the quantifier is greedy, so the match
(when one exists) runs from the first `{` to the last `}` of the string,
and a match exists exactly when the first `{` lies strictly before the
last `}`. -/
def extractJsonSpan (s : String) : Option String :=
  match firstIdxOf openBraceChar s.data, lastIdxOf closeBraceChar s.data with
  | some i, some j =>
    if i < j then some (String.mk ((s.data.drop i).take (j - i + 1))) else none
  | _, _ => none

/-- The `.then` continuation of `PythonShell.run` in `_runPythonScript`:
reject when no output lines were produced, locate the brace-delimited
substring of the joined, trimmed output, and `JSON.parse` it; a parse
failure is rethrown with the parse error interpolated into the message. -/
def processOutput (results : List String) (parse : String → Except String JSVal) :
    Except String JSVal :=
  if results.isEmpty then .error "No results returned from Python script"
  else
    match extractJsonSpan (jsTrim (String.join results)) with
    | none => .error "No JSON found in Python output"
    | some s =>
      match parse s with
      | .ok j => .ok j
      | .error e => .error ("Failed to parse Python result: " ++ e)

/-- Abstract behaviour of the `PythonShell.run` call: the time (ms) at
which the promise settles (`none` = never) and how it settles (rejection
message, or the list of stdout lines). -/
structure BackendBehaviour where
  resolvesAt : Option ℚ
  outcome : Except String (List String)

/-- The rejection message of the `setTimeout` timer in `_runPythonScript`. -/
def timeoutMessage (t : ℚ) : String :=
  "Operation timed out after " ++ toString t ++ "ms"

/-- `AddressExtractor._runPythonScript`: races the backend computation
(whose errors — rejection of `PythonShell.run` or a throw in the `.then`
continuation — are wrapped by the `.catch` with the prefix
`Python execution error: `) against a timer that rejects after
`timeout` ms. The backend wins the race exactly when it settles strictly
before the timer fires. -/
def runPythonScript (beh : BackendBehaviour) (parse : String → Except String JSVal)
    (timeout : ℚ) : Except String JSVal :=
  match beh.resolvesAt with
  | none => .error (timeoutMessage timeout)
  | some t =>
    if t < timeout then
      match beh.outcome with
      | .error e => .error ("Python execution error: " ++ e)
      | .ok lines =>
        match processOutput lines parse with
        | .ok j => .ok j
        | .error e => .error ("Python execution error: " ++ e)
    else .error (timeoutMessage timeout)

/-- Options of `extract` (`detailed` only influences the subprocess
arguments, i.e. the abstract backend behaviour; `timeout` is the race
bound). -/
structure ExtractionOptions where
  detailed : Bool := false
  timeout : Option ℚ := none

/-- `options.timeout || 30000` : a missing — or falsy, i.e. zero —
timeout falls back to 30000 ms. -/
def effectiveTimeout : Option ℚ → ℚ
  | none => 30000
  | some t => if t = 0 then 30000 else t

/-- `AddressExtractor.extract`: short-circuit empty/non-string input to
`emptyResult(address || '')`; otherwise run the Python script with the
effective timeout, wrapping any rejection with the prefix
`Address extraction failed: `. -/
def AddressExtractor.extract (address : JSVal) (opts : ExtractionOptions)
    (beh : BackendBehaviour) (parse : String → Except String JSVal) :
    Except String JSVal :=
  if shouldShortCircuit address then .ok (emptyResult (jsOrEmpty address))
  else
    match runPythonScript beh parse (effectiveTimeout opts.timeout) with
    | .ok j => .ok j
    | .error e => .error ("Address extraction failed: " ++ e)

/-- The optional `onProgress`/`onError` callbacks of `batchExtract`.
A JavaScript callback may itself throw, which we model by letting it
return `Except String Unit`. -/
structure BatchCallbacks where
  onProgress : Option (Nat → Nat → Except String Unit) := none
  onError : Option (String → String → Except String Unit) := none

/-- The `catch` block of one `batchExtract` iteration: the empty slot
has already been pushed (it is in `slots`); then `options.onError`, when
supplied, is invoked and may itself throw, which propagates out of the
whole batch. -/
def invokeOnError (cbs : BatchCallbacks) (address : String) (e : String)
    (slots : List JSVal) : Except String (List JSVal) :=
  match cbs.onError with
  | none => .ok slots
  | some h =>
    match h address e with
    | .ok _ => .ok slots
    | .error e2 => .error e2

/-- One iteration of the `batchExtract` loop (0-based index `i` over
`total` addresses), returning the result slots this iteration pushes:
on success push the result and call `onProgress(i+1, total)` — still
inside the `try`, so a throwing `onProgress` lands in the `catch`, which
pushes a second, empty slot for the same address; on failure of
`extract` push the empty slot and call `onError`. -/
def batchStep (extractF : String → Except String JSVal) (cbs : BatchCallbacks)
    (total i : Nat) (address : String) : Except String (List JSVal) :=
  match extractF address with
  | .ok r =>
    match cbs.onProgress with
    | none => .ok [r]
    | some p =>
      match p (i + 1) total with
      | .ok _ => .ok [r]
      | .error e => invokeOnError cbs address e [r, emptyResult (.string address)]
  | .error e => invokeOnError cbs address e [emptyResult (.string address)]

/-- The `batchExtract` loop from index `i` on: a throwing `onError`
rejects the whole batch (the accumulated slots are discarded with the
rejected promise). -/
def batchGo (extractF : String → Except String JSVal) (cbs : BatchCallbacks)
    (total : Nat) : Nat → List String → Except String (List JSVal)
  | _, [] => .ok []
  | i, a :: rest => do
    let slots ← batchStep extractF cbs total i a
    let rs ← batchGo extractF cbs total (i + 1) rest
    pure (slots ++ rs)

/-- `AddressExtractor.batchExtract`, parameterised over the behaviour
`extractF` of `this.extract(address, options)` for the fixed options of
the call. -/
def batchExtract (extractF : String → Except String JSVal)
    (addresses : List String) (cbs : BatchCallbacks) : Except String (List JSVal) :=
  batchGo extractF cbs addresses.length 0 addresses

/-- `AddressExtractor.isAvailable`: run a test extraction with a 5000 ms
timeout and convert the outcome to a boolean (`testResult !== null`,
`false` on any rejection). -/
def isAvailable (beh : BackendBehaviour) (parse : String → Except String JSVal) : Bool :=
  match AddressExtractor.extract (.string "test") { timeout := some 5000 } beh parse with
  | .ok JSVal.null => false
  | .ok _ => true
  | .error _ => false

/-- A thresholds object as passed to `setConfidenceThresholds`:
`Object.entries` order, each key mapped to a number or to `undefined`. -/
abbrev ThresholdMap := List (String × Option ℚ)

/-- The per-instance state of an `AddressExtractor`
(`private confidenceThresholds: ConfidenceThresholds | null = null`). -/
structure ExtractorState where
  confidenceThresholds : Option ThresholdMap := none

/-- A freshly constructed `AddressExtractor` (the constructor leaves
`confidenceThresholds` at its initializer `null`). -/
def ExtractorState.fresh : ExtractorState := {}

/-- The validation loop of `setConfidenceThresholds`
(`for (const [key, value] of Object.entries(thresholds))`): the first
entry whose value is defined (`value !== undefined`) and lies outside
`[0, 1]` (`value < 0 || value > 1`), if any. -/
def findInvalidThreshold : ThresholdMap → Option (String × ℚ)
  | [] => none
  | (k, some q) :: rest =>
    if q < 0 ∨ q > 1 then some (k, q) else findInvalidThreshold rest
  | (_, none) :: rest => findInvalidThreshold rest

/-- `AddressExtractor.setConfidenceThresholds`: throw on the first
defined out-of-range value (before the assignment line runs), else store
the supplied map itself. -/
def setConfidenceThresholds (st : ExtractorState) (t : ThresholdMap) :
    Except String ExtractorState :=
  match findInvalidThreshold t with
  | some kv =>
    .error ("Invalid threshold for " ++ kv.1 ++ ": " ++ toString kv.2
      ++ ". Must be between 0.0 and 1.0")
  | none => .ok { st with confidenceThresholds := some t }

/-- Running `setConfidenceThresholds` against the instance: a thrown
exception leaves the instance state untouched (the assignment
`this.confidenceThresholds = thresholds` is only reached after the
validation loop finished). -/
def applySetThresholds (st : ExtractorState) (t : ThresholdMap) :
    ExtractorState × Option String :=
  match setConfidenceThresholds st t with
  | .ok st2 => (st2, none)
  | .error e => (st, some e)

/-- `AddressExtractor.getConfidenceThresholds`. -/
def getConfidenceThresholds (st : ExtractorState) : Option ThresholdMap :=
  st.confidenceThresholds

/-- A world of independent `AddressExtractor` instances, indexed by
instance identity; each holds its own private state. -/
def InstanceWorld : Type := Nat → ExtractorState

/-- Replacing the state of instance `i` (what a successful
`setConfidenceThresholds` call on that instance does to the world). -/
def InstanceWorld.setAt (w : InstanceWorld) (i : Nat) (st : ExtractorState) :
    InstanceWorld :=
  fun j => if j = i then st else w j

/-- A backend that never settles; the short-circuit claims must not
consult it. -/
def behNever : BackendBehaviour := { resolvesAt := none, outcome := .error "unused" }

/-- A parse function for runs where parsing is never reached. -/
def parseNone : String → Except String JSVal := fun _ => .error "unused"

/-- `Except.isOk` as a plain boolean observer of an extraction outcome. -/
def exceptIsOk : Except String JSVal → Bool
  | .ok _ => true
  | .error _ => false

/-- An `extract` behaviour that always succeeds with a fixed result. -/
def okExtractF : String → Except String JSVal := fun _ => .ok (.string "r")

/-- A progress callback that itself throws. -/
def throwingProgress : Nat → Nat → Except String Unit := fun _ _ => .error "callback threw"

/-- Callbacks supplying only the throwing progress hook. -/
def progressCbs : BatchCallbacks := { onProgress := some throwingProgress }

/-- Benign callbacks used by the C6 witness. -/
def benignCbs : BatchCallbacks :=
  { onProgress := some fun _ _ => .ok (), onError := some fun _ _ => .ok () }

/-- A world of fresh instances, for the C9 witness. -/
def freshWorld : InstanceWorld := fun _ => ExtractorState.fresh

/-- Modelled from the claim's words (not the source): the timeout the
claim says bounds each extraction — the caller-supplied value, with
30000 ms only "when the caller supplies none". -/
def claimedTimeout : Option ℚ → ℚ
  | none => 30000
  | some t => t

/-- A well-formed backend reply, settling 100 ms after the request. -/
def jsonOkLine : String := "\x7b\"ok\": true\x7d"

/-- A parse function agreeing with `JSON.parse` on `jsonOkLine`. -/
def parseOkObj : String → Except String JSVal :=
  fun s => if s = jsonOkLine then .ok (.object [("ok", .boolean true)])
           else .error "SyntaxError"

/-- The backend settling successfully at 100 ms. -/
def behAt100 : BackendBehaviour := { resolvesAt := some 100, outcome := .ok [jsonOkLine] }

/-- A backend output line whose brace-delimited substring is not valid
JSON. -/
def malformedLine : String := "\x7bbad\x7d"

/-- The backend settling at 1 ms with the malformed line. -/
def behMalformed : BackendBehaviour :=
  { resolvesAt := some 1, outcome := .ok [malformedLine] }

/-- A `JSON.parse` failing with one diagnostic (as V8 would on
`malformedLine`). -/
def parseFailDetailA : String → Except String JSVal :=
  fun _ => .error "Unexpected token b in JSON at position 1"

/-- A `JSON.parse` failing with a different diagnostic. -/
def parseFailDetailB : String → Except String JSVal :=
  fun _ => .error "Unexpected end of JSON input"

/-- A backend output line carrying an out-of-range confidence. -/
def confLine : String := "\x7b\"overall_confidence\": 5\x7d"

/-- A parse function agreeing with `JSON.parse` on `confLine`. -/
def parseConf5 : String → Except String JSVal :=
  fun s => if s = confLine then .ok (.object [("overall_confidence", .number 5)])
           else .error "SyntaxError"

/-- The backend settling at 1 ms with the out-of-range reply. -/
def behConf5 : BackendBehaviour := { resolvesAt := some 1, outcome := .ok [confLine] }

/-- C1 (counterexample): on the truthy non-string input `5`, `extract`
resolves with the empty result whose `original_address` is the number `5`
itself (`address || ''` keeps a truthy value), not the empty string the
claim demands for non-string input. -/
theorem extract_truthy_nonstring_counterexample :
    AddressExtractor.extract (.number 5) {} behNever parseNone
      = .ok (emptyResult (.number 5))
    ∧ (emptyResult (.number 5)).getField "original_address" ≠ some (.string "") := by
  refine ⟨rfl, ?_⟩
  intro h
  have h2 : (emptyResult (.number 5)).getField "original_address"
      = some (.number 5) := rfl
  rw [h2] at h
  simp at h

/-- C1 (amended): for every input that is empty, whitespace-only, or not a
string, `extract` resolves without consulting the backend with the empty
result: components `{}`, overall_confidence `0`, extraction_time_ms `0`,
normalized_address `""`, and original_address the input itself when the
input is truthy and the empty string when it is falsy. -/
theorem extract_emptyish_short_circuits (v : JSVal) (opts opts2 : ExtractionOptions)
    (beh beh2 : BackendBehaviour) (parse parse2 : String → Except String JSVal)
    (hdom : v.isString = false ∨ jsTrim v.strVal = "") :
    AddressExtractor.extract v opts beh parse = .ok (emptyResult (jsOrEmpty v))
    ∧ AddressExtractor.extract v opts beh parse
        = AddressExtractor.extract v opts2 beh2 parse2
    ∧ (emptyResult (jsOrEmpty v)).getField "components" = some (.object [])
    ∧ (emptyResult (jsOrEmpty v)).getField "overall_confidence" = some (.number 0)
    ∧ (emptyResult (jsOrEmpty v)).getField "extraction_time_ms" = some (.number 0)
    ∧ (emptyResult (jsOrEmpty v)).getField "normalized_address" = some (.string "")
    ∧ (emptyResult (jsOrEmpty v)).getField "original_address"
        = some (if v.truthy then v else .string "") := by
  have hsc : shouldShortCircuit v = true := by
    rcases hdom with h | h
    · simp [shouldShortCircuit, h]
    · simp [shouldShortCircuit, h]
  refine ⟨by simp [AddressExtractor.extract, hsc],
          by simp [AddressExtractor.extract, hsc],
          rfl, rfl, rfl, rfl, rfl⟩

/-- Witness for C1 (amended), at the whitespace-only input `"  "`. -/
theorem extract_emptyish_short_circuits_witness :
    jsTrim (JSVal.string "  ").strVal = ""
    ∧ AddressExtractor.extract (.string "  ") {} behNever parseNone
        = .ok (emptyResult (jsOrEmpty (.string "  "))) :=
  ⟨by decide,
   (extract_emptyish_short_circuits (.string "  ") {} {} behNever behNever
      parseNone parseNone (Or.inr (by decide))).1⟩

/-- One `batchExtract` iteration with no callbacks supplied contributes
exactly one slot: the extract result, or the empty result on failure. -/
theorem batchStep_no_callbacks (extractF : String → Except String JSVal)
    (total i : Nat) (a : String) :
    batchStep extractF {} total i a
      = .ok [match extractF a with
             | .ok r => r
             | .error _ => emptyResult (.string a)] := by
  cases hfa : extractF a <;> simp [batchStep, invokeOnError, hfa]

/-- The `batchExtract` loop with no callbacks maps every address to its
slot, from any start index. -/
theorem batchGo_no_callbacks (extractF : String → Except String JSVal) (total : Nat) :
    ∀ (addresses : List String) (i : Nat),
      batchGo extractF {} total i addresses
        = .ok (addresses.map fun a =>
            match extractF a with
            | .ok r => r
            | .error _ => emptyResult (.string a)) := by
  intro addresses
  induction addresses with
  | nil => intro i; rfl
  | cons a rest ih =>
    intro i
    simp only [batchGo, batchStep_no_callbacks, ih (i + 1)]
    rfl

/-- C2: for every behaviour of `extract` and every list of N addresses,
`batchExtract` resolves with exactly N results, one per input in order;
an address on which `extract` fails gets the empty zero-confidence slot
and the remaining addresses are still processed. -/
theorem batchExtract_slot_per_address (extractF : String → Except String JSVal)
    (addresses : List String) :
    batchExtract extractF addresses {}
      = .ok (addresses.map fun a =>
          match extractF a with
          | .ok r => r
          | .error _ => emptyResult (.string a))
    ∧ (addresses.map fun a =>
          match extractF a with
          | .ok r => r
          | .error _ => emptyResult (.string a)).length = addresses.length :=
  ⟨batchGo_no_callbacks extractF addresses.length addresses 0, by simp⟩

/-- C6 (counterexample): `onProgress` is invoked inside the `try` block
after the result was pushed, so a throwing progress callback lands in the
`catch`, which pushes a second, empty slot for the same address: with the
callback the batch returns two results for the one address, without it
one. -/
theorem batch_callbacks_affect_results_counterexample :
    batchExtract okExtractF ["a"] progressCbs ≠ batchExtract okExtractF ["a"] {} := by
  intro h
  have h1 : batchExtract okExtractF ["a"] progressCbs
      = .ok [.string "r", emptyResult (.string "a")] := rfl
  have h2 : batchExtract okExtractF ["a"] {} = .ok [.string "r"] := rfl
  rw [h1, h2] at h
  have h3 := congrArg (fun x => match x with
    | Except.ok (l : List JSVal) => l.length
    | Except.error _ => 0) h
  simp at h3

/-- One iteration behaves identically with and without callbacks, provided
every supplied callback returns normally. -/
theorem batchStep_benign_callbacks (extractF : String → Except String JSVal)
    (cbs : BatchCallbacks) (total i : Nat) (a : String)
    (hp : ∀ p, cbs.onProgress = some p → ∀ m n, p m n = .ok ())
    (he : ∀ h, cbs.onError = some h → ∀ x e, h x e = .ok ()) :
    batchStep extractF cbs total i a = batchStep extractF {} total i a := by
  cases hfa : extractF a with
  | ok r =>
    cases hop : cbs.onProgress with
    | none => simp [batchStep, hfa, hop]
    | some p => simp [batchStep, hfa, hop, hp p hop]
  | error e =>
    cases hoe : cbs.onError with
    | none => simp [batchStep, invokeOnError, hfa, hoe]
    | some hh => simp [batchStep, invokeOnError, hfa, hoe, he hh hoe]

/-- C6 (amended): the optional `onProgress`/`onError` callbacks have no
effect on the returned result list provided they return normally; a
callback that itself throws does change the outcome (see the
counterexample). -/
theorem batch_callbacks_pure_observers (extractF : String → Except String JSVal)
    (cbs : BatchCallbacks) (addresses : List String)
    (hp : ∀ p, cbs.onProgress = some p → ∀ m n, p m n = .ok ())
    (he : ∀ h, cbs.onError = some h → ∀ x e, h x e = .ok ()) :
    batchExtract extractF addresses cbs = batchExtract extractF addresses {} := by
  unfold batchExtract
  generalize addresses.length = total
  generalize 0 = i
  induction addresses generalizing i with
  | nil => rfl
  | cons a rest ih =>
    simp only [batchGo, batchStep_benign_callbacks extractF cbs total i a hp he, ih]

/-- Witness for C6 (amended): with callbacks that return normally the
batch result is the same as with no callbacks. -/
theorem batch_callbacks_pure_observers_witness :
    batchExtract okExtractF ["a", "b"] benignCbs
      = batchExtract okExtractF ["a", "b"] {} :=
  batch_callbacks_pure_observers okExtractF benignCbs ["a", "b"]
    (by intro p hpp m n
        simp only [benignCbs] at hpp
        cases hpp
        rfl)
    (by intro h hhe x e
        simp only [benignCbs] at hhe
        cases hhe
        rfl)

/-- The validation loop finds nothing exactly when every defined value
lies in `[0, 1]`. -/
theorem findInvalidThreshold_eq_none_iff (t : ThresholdMap) :
    findInvalidThreshold t = none ↔ ∀ k q, (k, some q) ∈ t → 0 ≤ q ∧ q ≤ 1 := by
  induction t with
  | nil => simp [findInvalidThreshold]
  | cons kv rest ih =>
    obtain ⟨k, v⟩ := kv
    cases v with
    | none =>
      simp only [findInvalidThreshold, ih]
      constructor
      · intro hall k2 q2 hmem
        rcases List.mem_cons.mp hmem with heq | hmem2
        · exact absurd (congrArg Prod.snd heq) (by simp)
        · exact hall k2 q2 hmem2
      · intro hall k2 q2 hmem
        exact hall k2 q2 (List.mem_cons_of_mem _ hmem)
    | some q =>
      by_cases hq : q < 0 ∨ q > 1
      · simp only [findInvalidThreshold, if_pos hq]
        constructor
        · intro hcontra; exact absurd hcontra (by simp)
        · intro hall
          have hin := hall k q (List.mem_cons_self _ _)
          rcases hq with hlt | hgt
          · exact absurd hin.1 (not_le.mpr hlt)
          · exact absurd hin.2 (not_le.mpr hgt)
      · push_neg at hq
        have hcond : ¬(q < 0 ∨ q > 1) :=
          not_or.mpr ⟨not_lt.mpr hq.1, not_lt.mpr hq.2⟩
        simp only [findInvalidThreshold, if_neg hcond]
        rw [ih]
        constructor
        · intro hall k2 q2 hmem
          rcases List.mem_cons.mp hmem with heq | hmem2
          · have h1 : k2 = k ∧ (some q2 : Option ℚ) = some q := Prod.mk.injEq .. ▸ heq
            have h2 : q2 = q := by
              have := h1.2
              injection this
            exact h2 ▸ ⟨hq.1, hq.2⟩
          · exact hall k2 q2 hmem2
        · intro hall k2 q2 hmem
          exact hall k2 q2 (List.mem_cons_of_mem _ hmem)

/-- C3: `setConfidenceThresholds` throws — leaving the stored thresholds
untouched — whenever the supplied map has a defined value outside
`[0, 1]`, and otherwise stores the supplied map as given. -/
theorem setThresholds_validation (st : ExtractorState) (t : ThresholdMap) :
    ((∃ k q, (k, some q) ∈ t ∧ (q < 0 ∨ q > 1)) →
      (applySetThresholds st t).2.isSome = true ∧ (applySetThresholds st t).1 = st)
    ∧ ((∀ k q, (k, some q) ∈ t → 0 ≤ q ∧ q ≤ 1) →
      applySetThresholds st t = ({ st with confidenceThresholds := some t }, none)) := by
  constructor
  · intro ⟨k, q, hmem, hout⟩
    have hne : findInvalidThreshold t ≠ none := by
      rw [Ne, findInvalidThreshold_eq_none_iff]
      intro hall
      have hin := hall k q hmem
      rcases hout with hlt | hgt
      · exact absurd hin.1 (not_le.mpr hlt)
      · exact absurd hin.2 (not_le.mpr hgt)
    cases hcase : findInvalidThreshold t with
    | none => exact absurd hcase hne
    | some kv =>
      simp [applySetThresholds, setConfidenceThresholds, hcase]
  · intro hall
    have hnone : findInvalidThreshold t = none :=
      (findInvalidThreshold_eq_none_iff t).mpr hall
    simp [applySetThresholds, setConfidenceThresholds, hnone]

/-- Witness for C3: the out-of-range value `2` is rejected and leaves the
state untouched; the in-range map `[("road", 1/2)]` is stored as given. -/
theorem setThresholds_validation_witness :
    ((applySetThresholds ExtractorState.fresh [("house_number", some 2)]).2.isSome = true
      ∧ (applySetThresholds ExtractorState.fresh [("house_number", some 2)]).1
          = ExtractorState.fresh)
    ∧ applySetThresholds ExtractorState.fresh [("road", some (1/2))]
        = ({ ExtractorState.fresh with confidenceThresholds := some [("road", some (1/2))] },
           none) :=
  ⟨(setThresholds_validation ExtractorState.fresh [("house_number", some 2)]).1
      ⟨"house_number", 2, by simp, by norm_num⟩,
   (setThresholds_validation ExtractorState.fresh [("road", some (1/2))]).2
      (by intro k q hmem
          simp at hmem
          rw [hmem.2]
          norm_num)⟩

/-- C9: a fresh `AddressExtractor` reports `null` thresholds; after a
successful `setConfidenceThresholds(t)` the getter returns exactly `t`;
and a successful set on instance `i` leaves the thresholds observed on
every other instance `j` unchanged. -/
theorem thresholds_roundtrip_isolated (w : InstanceWorld) (i j : Nat)
    (t : ThresholdMap) (st2 : ExtractorState) :
    getConfidenceThresholds ExtractorState.fresh = none
    ∧ (setConfidenceThresholds (w i) t = .ok st2 →
        getConfidenceThresholds st2 = some t)
    ∧ (setConfidenceThresholds (w i) t = .ok st2 → j ≠ i →
        getConfidenceThresholds (w.setAt i st2 j) = getConfidenceThresholds (w j)) := by
  refine ⟨rfl, ?_, ?_⟩
  · intro hok
    unfold setConfidenceThresholds at hok
    cases hcase : findInvalidThreshold t with
    | some kv => rw [hcase] at hok; exact absurd hok (by simp)
    | none =>
      rw [hcase] at hok
      have := Except.ok.inj hok
      rw [← this]
      rfl
  · intro _ hji
    unfold InstanceWorld.setAt
    rw [if_neg hji]

/-- Witness for C9, on a world of fresh instances with the map
`[("area", 0.7)]` set on instance 0. -/
theorem thresholds_roundtrip_isolated_witness :
    getConfidenceThresholds ExtractorState.fresh = none
    ∧ getConfidenceThresholds { confidenceThresholds := some [("area", some (7/10))] }
        = some [("area", some (7/10))]
    ∧ getConfidenceThresholds
        (InstanceWorld.setAt freshWorld 0
          { confidenceThresholds := some [("area", some (7/10))] } 1)
        = getConfidenceThresholds (freshWorld 1) :=
  ⟨(thresholds_roundtrip_isolated freshWorld 0 1
      [("area", some (7/10))] { confidenceThresholds := some [("area", some (7/10))] }).1,
   (thresholds_roundtrip_isolated freshWorld 0 1
      [("area", some (7/10))] { confidenceThresholds := some [("area", some (7/10))] }).2.1
     (by unfold setConfidenceThresholds
         norm_num [findInvalidThreshold]),
   (thresholds_roundtrip_isolated freshWorld 0 1
      [("area", some (7/10))] { confidenceThresholds := some [("area", some (7/10))] }).2.2
     (by unfold setConfidenceThresholds
         norm_num [findInvalidThreshold])
     (by norm_num)⟩

/-- C4 (counterexample): with the caller-supplied timeout `0` the backend
has certainly not completed "within the timeout" (it settles at 100 ms),
yet `extract` resolves with the parsed reply instead of rejecting:
`options.timeout || 30000` treats the supplied `0` as absent. -/
theorem extract_zero_timeout_counterexample :
    ¬ ((100 : ℚ) < claimedTimeout (some 0))
    ∧ AddressExtractor.extract (.string "x") { timeout := some 0 } behAt100 parseOkObj
        = .ok (.object [("ok", .boolean true)]) := by
  constructor
  · norm_num [claimedTimeout]
  · rfl

/-- C4 (amended): each extraction is bounded by the *effective* timeout —
the caller-supplied value when it is nonzero, and 30000 ms when the
caller supplies none or supplies `0`; when the backend has not completed
within the effective timeout, `extract` rejects with the timeout error
and no partial result. -/
theorem extract_timeout_rejects (addr : JSVal) (opts : ExtractionOptions)
    (beh : BackendBehaviour) (parse : String → Except String JSVal)
    (hns : shouldShortCircuit addr = false)
    (hlate : ∀ t, beh.resolvesAt = some t → ¬ t < effectiveTimeout opts.timeout) :
    AddressExtractor.extract addr opts beh parse
      = .error ("Address extraction failed: "
          ++ timeoutMessage (effectiveTimeout opts.timeout))
    ∧ effectiveTimeout none = 30000
    ∧ effectiveTimeout (some 0) = 30000
    ∧ ∀ q : ℚ, q ≠ 0 → effectiveTimeout (some q) = q := by
  refine ⟨?_, rfl, rfl, ?_⟩
  · unfold AddressExtractor.extract
    rw [if_neg (by simp [hns])]
    unfold runPythonScript
    cases hres : beh.resolvesAt with
    | none => rfl
    | some t => simp [hlate t hres]
  · intro q hq
    simp [effectiveTimeout, hq]

/-- Witness for C4 (amended): a backend that never settles makes
`extract` reject with the 30000 ms default timeout error. -/
theorem extract_timeout_rejects_witness :
    AddressExtractor.extract (.string "x") {} behNever parseNone
      = .error ("Address extraction failed: " ++ timeoutMessage 30000) :=
  (extract_timeout_rejects (.string "x") {} behNever parseNone
    (by decide)
    (by intro t ht; simp [behNever] at ht)).1

/-- C5 (counterexample): two runs differing only in the JSON parser's
failure diagnostic produce different surfaced errors — the wrapper
interpolates `${parseError}` into the rejection message, so the surfaced
error does leak the implementation-specific parse details. -/
theorem parse_details_leak_counterexample :
    runPythonScript behMalformed parseFailDetailA 30000
      ≠ runPythonScript behMalformed parseFailDetailB 30000
    ∧ runPythonScript behMalformed parseFailDetailA 30000
      = .error ("Python execution error: Failed to parse Python result: "
          ++ "Unexpected token b in JSON at position 1") := by
  refine ⟨?_, rfl⟩
  intro h
  have h1 : runPythonScript behMalformed parseFailDetailA 30000
      = .error ("Python execution error: Failed to parse Python result: "
          ++ "Unexpected token b in JSON at position 1") := rfl
  have h2 : runPythonScript behMalformed parseFailDetailB 30000
      = .error ("Python execution error: Failed to parse Python result: "
          ++ "Unexpected end of JSON input") := rfl
  rw [h1, h2] at h
  injection h with h3
  exact absurd h3 (by decide)

/-- C5 (amended): a malformed backend reply always rejects with a failure
wrapped under `Python execution error: `; in the no-JSON case the message
is fixed, but when the extracted JSON text fails to parse the surfaced
message embeds the parse error's diagnostic text. -/
theorem backend_malformed_wrapped (beh : BackendBehaviour)
    (parse : String → Except String JSVal) (T t : ℚ) (lines : List String)
    (hres : beh.resolvesAt = some t) (ht : t < T) (hout : beh.outcome = .ok lines)
    (hne : lines ≠ []) :
    (extractJsonSpan (jsTrim (String.join lines)) = none →
      runPythonScript beh parse T
        = .error "Python execution error: No JSON found in Python output")
    ∧ (∀ s e, extractJsonSpan (jsTrim (String.join lines)) = some s →
        parse s = .error e →
        runPythonScript beh parse T
          = .error ("Python execution error: Failed to parse Python result: " ++ e)) := by
  have hemp : lines.isEmpty = false := by
    cases lines with
    | nil => exact absurd rfl hne
    | cons a rest => rfl
  constructor
  · intro hspan
    unfold runPythonScript
    rw [hres]
    simp [ht, hout, processOutput, hemp, hspan]
  · intro s e hspan hparse
    unfold runPythonScript
    rw [hres]
    simp [ht, hout, processOutput, hemp, hspan, hparse]
    rfl

/-- Witness for C5 (amended): the malformed line with diagnostic A. -/
theorem backend_malformed_wrapped_witness :
    runPythonScript behMalformed parseFailDetailA 30000
      = .error ("Python execution error: Failed to parse Python result: "
          ++ "Unexpected token b in JSON at position 1") :=
  (backend_malformed_wrapped behMalformed parseFailDetailA 30000 1 [malformedLine]
    rfl (by norm_num) rfl (by simp)).2
    malformedLine "Unexpected token b in JSON at position 1" (by decide) rfl

/-- `firstIdxOf` really points at an occurrence: the list dropped to the
found index starts with the sought character. -/
theorem firstIdxOf_head (c : Char) : ∀ (cs : List Char) (i : Nat),
    firstIdxOf c cs = some i → (cs.drop i).head? = some c := by
  intro cs
  induction cs with
  | nil => intro i h; simp [firstIdxOf] at h
  | cons x xs ih =>
    intro i h
    by_cases hx : x = c
    · simp [firstIdxOf, hx] at h
      rw [← h]
      simp [hx]
    · simp [firstIdxOf, hx] at h
      obtain ⟨i2, hi2, hi⟩ := h
      rw [← hi]
      simpa using ih i2 hi2

/-- The brace-delimited substring the wrapper extracts always starts with
`{` (so `JSON.parse` is only ever applied to object-shaped text). -/
theorem extractJsonSpan_head (s sub : String)
    (h : extractJsonSpan s = some sub) : sub.data.head? = some openBraceChar := by
  unfold extractJsonSpan at h
  split at h
  · rename_i i j hf hl
    split at h
    · injection h with h2
      rw [← h2]
      have hd := firstIdxOf_head openBraceChar s.data i hf
      show ((s.data.drop i).take (j - i + 1)).head? = some openBraceChar
      cases hcons : s.data.drop i with
      | nil => rw [hcons] at hd; simp at hd
      | cons a rest =>
        rw [hcons] at hd
        simp only [List.head?] at hd
        simp [hd]
    · exact absurd h (by simp)
  · exact absurd h (by simp)

/-- Inversion of `processOutput` on success: the backend produced output
lines, a brace-delimited substring exists, and the result is its parse. -/
theorem processOutput_ok_inversion {lines : List String}
    {parse : String → Except String JSVal} {j : JSVal}
    (h : processOutput lines parse = .ok j) :
    lines ≠ [] ∧ ∃ s, extractJsonSpan (jsTrim (String.join lines)) = some s
      ∧ parse s = .ok j := by
  unfold processOutput at h
  split at h
  · exact absurd h (by simp)
  · rename_i hemp
    constructor
    · intro hnil
      rw [hnil] at hemp
      exact hemp rfl
    · split at h
      · exact absurd h (by simp)
      · rename_i s hspan
        split at h
        · rename_i j2 hparse
          refine ⟨s, hspan, ?_⟩
          rw [hparse]
          exact h
        · exact absurd h (by simp)

/-- Inversion of `runPythonScript` on success: the backend settled in
time with output lines whose processing yielded the value. -/
theorem runPythonScript_ok_inversion {beh : BackendBehaviour}
    {parse : String → Except String JSVal} {T : ℚ} {j : JSVal}
    (h : runPythonScript beh parse T = .ok j) :
    ∃ lines, beh.outcome = .ok lines ∧ processOutput lines parse = .ok j := by
  unfold runPythonScript at h
  split at h
  · exact absurd h (by simp)
  · split at h
    · split at h
      · exact absurd h (by simp)
      · rename_i lines hout
        split at h
        · rename_i j2 hpo
          refine ⟨lines, hout, ?_⟩
          rw [hpo]
          exact h
        · exact absurd h (by simp)
    · exact absurd h (by simp)

/-- A successful `extract` outcome that did not take the short-circuit
path is exactly the `JSON.parse` of the brace-delimited substring of the
backend's joined, trimmed output: the wrapper passes the parsed value
through unchanged (no validation or clamping). -/
theorem extract_ok_of_backend {addr : JSVal} {opts : ExtractionOptions}
    {beh : BackendBehaviour} {parse : String → Except String JSVal} {j : JSVal}
    (hsc : shouldShortCircuit addr = false)
    (hok : AddressExtractor.extract addr opts beh parse = .ok j) :
    ∃ lines s, beh.outcome = .ok lines ∧ lines ≠ []
      ∧ extractJsonSpan (jsTrim (String.join lines)) = some s
      ∧ parse s = .ok j := by
  unfold AddressExtractor.extract at hok
  rw [if_neg (by simp [hsc])] at hok
  split at hok
  · rename_i j2 hrp
    injection hok with hj
    subst hj
    obtain ⟨lines, hout, hpo⟩ := runPythonScript_ok_inversion hrp
    obtain ⟨hne, s, hspan, hps⟩ := processOutput_ok_inversion hpo
    exact ⟨lines, s, hout, hne, hspan, hps⟩
  · exact absurd hok (by simp)

/-- C7: `isAvailable` converts the outcome of the internal test
extraction into a boolean for every backend behaviour — `true` exactly
when the test extraction resolves, `false` on any rejection (backend
unreachable, malformed reply, timeout). The hypothesis records the
`JSON.parse` contract our abstract parser inherits: on text that starts
with `{` (the only text the wrapper ever parses), a successful parse is
never the `null` literal. -/
theorem isAvailable_reports_extract_outcome (beh : BackendBehaviour)
    (parse : String → Except String JSVal)
    (hparse : ∀ s v, s.data.head? = some openBraceChar → parse s = .ok v →
      v ≠ JSVal.null) :
    isAvailable beh parse
      = exceptIsOk (AddressExtractor.extract (.string "test")
          { timeout := some 5000 } beh parse) := by
  cases hx : AddressExtractor.extract (.string "test") { timeout := some 5000 } beh parse with
  | error e => simp [isAvailable, hx, exceptIsOk]
  | ok j =>
    obtain ⟨lines, s, hout, hne, hspan, hps⟩ := extract_ok_of_backend (by decide) hx
    have hj : j ≠ JSVal.null :=
      hparse s j (extractJsonSpan_head (jsTrim (String.join lines)) s hspan) hps
    cases j <;> simp_all [isAvailable, exceptIsOk]

/-- Witness for C7, on the backend that settles successfully at 100 ms. -/
theorem isAvailable_reports_extract_outcome_witness :
    isAvailable behAt100 parseOkObj
      = exceptIsOk (AddressExtractor.extract (.string "test")
          { timeout := some 5000 } behAt100 parseOkObj) :=
  isAvailable_reports_extract_outcome behAt100 parseOkObj
    (by intro s v hhead hv
        unfold parseOkObj at hv
        split at hv
        · injection hv with h2
          rw [← h2]
          simp
        · exact Except.noConfusion hv)

/-- C8 (counterexample): the wrapper performs no bounds validation on the
parsed reply, so a backend reply with `overall_confidence: 5` is returned
to the caller as-is, violating `overall_confidence ≤ 1`. -/
theorem extract_confidence_unvalidated_counterexample :
    AddressExtractor.extract (.string "Mirpur") {} behConf5 parseConf5
      = .ok (.object [("overall_confidence", .number 5)])
    ∧ (JSVal.object [("overall_confidence", .number 5)]).getField "overall_confidence"
        = some (.number 5)
    ∧ ¬ ((5 : ℚ) ≤ 1) := by
  refine ⟨rfl, rfl, by norm_num⟩

/-- C8 (amended): results built locally (the empty-input short circuit
and the batch failure slots) carry `overall_confidence` `0` — inside
`[0, 1]` — and empty components; a result delivered from the backend is
exactly the parsed backend reply, passed through with no validation, so
its confidences lie in `[0, 1]` exactly when the reply's values do. -/
theorem extract_confidence_passthrough (v addr : JSVal) (opts : ExtractionOptions)
    (beh : BackendBehaviour) (parse : String → Except String JSVal) (j : JSVal)
    (hsc : shouldShortCircuit addr = false)
    (hok : AddressExtractor.extract addr opts beh parse = .ok j) :
    ((emptyResult v).getField "overall_confidence" = some (.number 0)
      ∧ (0 : ℚ) ≤ 0 ∧ (0 : ℚ) ≤ 1
      ∧ (emptyResult v).getField "components" = some (.object []))
    ∧ ∀ lines s, beh.outcome = .ok lines →
        extractJsonSpan (jsTrim (String.join lines)) = some s →
        parse s = .ok j := by
  refine ⟨⟨rfl, le_refl 0, by norm_num, rfl⟩, ?_⟩
  intro lines s hout hspan
  obtain ⟨lines2, s2, hout2, hne2, hspan2, hps2⟩ := extract_ok_of_backend hsc hok
  rw [hout] at hout2
  injection hout2 with hl
  subst hl
  rw [hspan] at hspan2
  injection hspan2 with hs
  subst hs
  exact hps2

/-- Witness for C8 (amended), on the out-of-range reply: the empty result
carries confidence 0 and the backend result is the verbatim parse. -/
theorem extract_confidence_passthrough_witness :
    (emptyResult (JSVal.string "")).getField "overall_confidence"
      = some (JSVal.number 0)
    ∧ parseConf5 confLine = .ok (.object [("overall_confidence", .number 5)]) :=
  ⟨(extract_confidence_passthrough (JSVal.string "") (.string "Mirpur") {} behConf5
      parseConf5 (.object [("overall_confidence", .number 5)]) (by decide) rfl).1.1,
   (extract_confidence_passthrough (JSVal.string "") (.string "Mirpur") {} behConf5
      parseConf5 (.object [("overall_confidence", .number 5)]) (by decide) rfl).2
     [confLine] confLine rfl rfl⟩

/-- `firstIdxOf` skips a prefix free of the sought character. -/
theorem firstIdxOf_append_of_not_mem (c : Char) (l1 l2 : List Char)
    (hnot : ∀ x ∈ l1, x ≠ c) :
    firstIdxOf c (l1 ++ l2) = (firstIdxOf c l2).map (· + l1.length) := by
  induction l1 with
  | nil =>
    simp only [List.nil_append, List.length_nil]
    cases firstIdxOf c l2 <;> simp
  | cons x xs ih =>
    have hx : x ≠ c := hnot x (List.mem_cons_self x xs)
    have ih2 := ih (fun y hy => hnot y (List.mem_cons_of_mem x hy))
    simp only [List.cons_append, firstIdxOf, if_neg hx, List.append_eq, ih2,
      List.length_cons]
    cases firstIdxOf c l2 with
    | none => rfl
    | some k =>
      simp only [Option.map_some']
      exact congrArg some (by omega)

/-- `firstIdxOf` at a matching head. -/
theorem firstIdxOf_cons_self (c : Char) (xs : List Char) :
    firstIdxOf c (c :: xs) = some 0 := by
  simp [firstIdxOf]

/-- The substring the wrapper extracts tolerates arbitrary text around
the brace window: for any noise `pre` without `{` and `post` without `}`,
the span of `pre ++ mid ++ post` is exactly `mid` when `mid` starts with
`{`, ends with `}`, and has at least two characters. -/
theorem extractJsonSpan_window (pre mid post : String)
    (hpre : ∀ x ∈ pre.data, x ≠ openBraceChar)
    (hpost : ∀ x ∈ post.data, x ≠ closeBraceChar)
    (hhead : ∃ m, mid.data = openBraceChar :: m)
    (hlast : ∃ m, mid.data.reverse = closeBraceChar :: m)
    (hlen : 2 ≤ mid.data.length) :
    extractJsonSpan (pre ++ mid ++ post) = some mid := by
  obtain ⟨m1, hm1⟩ := hhead
  obtain ⟨m2, hm2⟩ := hlast
  have hdata : (pre ++ mid ++ post).data = pre.data ++ (mid.data ++ post.data) := by
    rw [String.data_append, String.data_append, List.append_assoc]
  have hfirst : firstIdxOf openBraceChar (pre ++ mid ++ post).data
      = some pre.data.length := by
    rw [hdata, firstIdxOf_append_of_not_mem openBraceChar pre.data _ hpre, hm1,
      List.cons_append, firstIdxOf_cons_self]
    simp
  have hrev : (pre ++ mid ++ post).data.reverse
      = post.data.reverse ++ (mid.data.reverse ++ pre.data.reverse) := by
    rw [hdata]
    simp [List.reverse_append]
  have hpostrev : ∀ x ∈ post.data.reverse, x ≠ closeBraceChar := by
    intro x hx
    exact hpost x (List.mem_reverse.mp hx)
  have hfirstrev : firstIdxOf closeBraceChar (pre ++ mid ++ post).data.reverse
      = some post.data.length := by
    rw [hrev, firstIdxOf_append_of_not_mem closeBraceChar post.data.reverse _ hpostrev,
      hm2, List.cons_append, firstIdxOf_cons_self]
    simp
  have hlast2 : lastIdxOf closeBraceChar (pre ++ mid ++ post).data
      = some (pre.data.length + mid.data.length - 1) := by
    unfold lastIdxOf
    rw [hfirstrev]
    show some ((pre ++ mid ++ post).data.length - 1 - post.data.length)
        = some (pre.data.length + mid.data.length - 1)
    rw [hdata]
    simp only [List.length_append]
    exact congrArg some (by omega)
  have hcond : pre.data.length < pre.data.length + mid.data.length - 1 := by omega
  simp only [extractJsonSpan, hfirst, hlast2]
  rw [if_pos hcond]
  congr 1
  have hdrop : (pre ++ mid ++ post).data.drop pre.data.length
      = mid.data ++ post.data := by
    rw [hdata, List.drop_left]
  rw [hdrop]
  have harith : pre.data.length + mid.data.length - 1 - pre.data.length + 1
      = mid.data.length := by omega
  rw [harith, List.take_left]

/-- C10: once the backend settled in time with output `lines`, the
operation succeeds iff some line was produced, the joined trimmed output
has a brace-delimited substring, and that substring parses as JSON; the
success value is exactly the parse of that substring; and the extraction
window runs from the first `{` to the last `}`, tolerating arbitrary
brace-free noise before and after it. -/
theorem runPython_json_window (beh : BackendBehaviour)
    (parse : String → Except String JSVal) (T t : ℚ) (lines : List String)
    (hres : beh.resolvesAt = some t) (ht : t < T) (hout : beh.outcome = .ok lines) :
    ((∃ j, runPythonScript beh parse T = .ok j) ↔
      (lines ≠ [] ∧ ∃ s jv, extractJsonSpan (jsTrim (String.join lines)) = some s
        ∧ parse s = .ok jv))
    ∧ (∀ j, runPythonScript beh parse T = .ok j →
        ∀ s, extractJsonSpan (jsTrim (String.join lines)) = some s → parse s = .ok j)
    ∧ (∀ pre mid post : String,
        (∀ x ∈ pre.data, x ≠ openBraceChar) →
        (∀ x ∈ post.data, x ≠ closeBraceChar) →
        (∃ m, mid.data = openBraceChar :: m) →
        (∃ m, mid.data.reverse = closeBraceChar :: m) →
        2 ≤ mid.data.length →
        extractJsonSpan (pre ++ mid ++ post) = some mid) := by
  refine ⟨⟨?_, ?_⟩, ?_, ?_⟩
  · intro ⟨j, hj⟩
    obtain ⟨lines2, hout2, hpo⟩ := runPythonScript_ok_inversion hj
    rw [hout] at hout2
    injection hout2 with hl
    subst hl
    obtain ⟨hne, s, hspan, hps⟩ := processOutput_ok_inversion hpo
    exact ⟨hne, s, j, hspan, hps⟩
  · intro ⟨hne, s, jv, hspan, hps⟩
    refine ⟨jv, ?_⟩
    have hemp : lines.isEmpty = false := by
      cases lines with
      | nil => exact absurd rfl hne
      | cons a r => rfl
    unfold runPythonScript
    rw [hres]
    simp [ht, hout, processOutput, hemp, hspan, hps]
  · intro j hj s hspan
    obtain ⟨lines2, hout2, hpo⟩ := runPythonScript_ok_inversion hj
    rw [hout] at hout2
    injection hout2 with hl
    subst hl
    obtain ⟨hne, s2, hspan2, hps2⟩ := processOutput_ok_inversion hpo
    rw [hspan] at hspan2
    injection hspan2 with hs
    subst hs
    exact hps2
  · intro pre mid post hpre hpost hhead hlast hlen
    exact extractJsonSpan_window pre mid post hpre hpost hhead hlast hlen

/-- Witness for C10: the brace window is extracted from the middle of
surrounding noise. -/
theorem runPython_json_window_witness :
    extractJsonSpan ("noise before " ++ jsonOkLine ++ " noise after") = some jsonOkLine :=
  (runPython_json_window behAt100 parseOkObj 30000 100 [jsonOkLine]
      rfl (by norm_num) rfl).2.2
    "noise before " jsonOkLine " noise after"
    (by decide) (by decide) ⟨_, rfl⟩ ⟨_, rfl⟩ (by decide)
